import Mathlib

/-!
Shallow embedding of src/fredapi/__init__.py, a FRED API client.  The one
algorithm of interest is FredAPI.get_panel: a paginated fetch of the full
revision history of a series, conversion of the three date columns, a cross
merge of the caller supplied observation dates with the fetched records, a
validity filter on realtime intervals, an nlargest window per observation
date, a cumcount ranking in descending value date order, and a pivot plus
stack into a long table keyed by observation date and rank.

Modelling conventions.  A pandas DataFrame is a list of rows whose position
is its index (the code resets indexes to 0..n-1 before the steps where
alignment matters).  Converted datetimes are natural number codes
(year * 10000 + month * 100 + day), whose order agrees with chronological
order for calendar dates.  Fallible pandas operations return Except.
-/

/-- Calendar date as it appears in a JSON payload field. -/
structure Date where
  year : Nat
  month : Nat
  day : Nat
deriving DecidableEq

/-- Numeric code of a calendar date; for valid dates the numeric order is the
chronological order. -/
def Date.code (d : Date) : Nat := d.year * 10000 + d.month * 100 + d.day

/-- Model of pd.to_datetime on one date string.  Pandas represents timestamps
in nanoseconds, so only dates from 1677-09-22 to 2262-04-11 are representable;
anything outside raises OutOfBoundsDatetime.  In particular the FRED sentinel
9999-12-31 for a still current observation raises. -/
def to_datetime (d : Date) : Except String Nat :=
  if d.code < 16770922 || 22620411 < d.code then Except.error "OutOfBoundsDatetime"
  else Except.ok d.code

/-- One record of the observations array of the JSON response, before date
conversion. -/
structure RawObs where
  realtime_start : Date
  realtime_end : Date
  date : Date
  value : String
deriving DecidableEq

/-- One observation record after the date columns have been converted. -/
structure Obs where
  realtime_start : Nat
  realtime_end : Nat
  date : Nat
  value : String
deriving DecidableEq

/-- Model of the date conversion loop: for col in [realtime_start,
realtime_end, date]: data[col] = pd.to_datetime(data[col]).  When the
observations array is empty, pd.DataFrame([]) has no columns at all, so
reading the realtime_start column raises KeyError. -/
def convertObs (raw : List RawObs) : Except String (List Obs) :=
  if raw.isEmpty then Except.error "KeyError realtime_start"
  else raw.mapM (fun r => do
    let rs ← to_datetime r.realtime_start
    let re ← to_datetime r.realtime_end
    let dt ← to_datetime r.date
    Except.ok { realtime_start := rs, realtime_end := re, date := dt, value := r.value })

/-- Pagination: the observations endpoint returns at most one page per call;
a later request with parameter offset returns the records starting there.
This models the REST endpoint returning records offset, offset+1, ... of the
full record list, at most pageSize of them. -/
def fetchPage (records : List α) (pageSize offset : Nat) : List α :=
  (records.drop offset).take pageSize

/-- The pagination loop of get_panel: while metadata count exceeds the number
of records fetched so far, request another page at offset len(data) and
append it.  The loop is given fuel; none models a fetch that never reaches
the declared count (as the real loop would spin forever on empty pages). -/
def paginate (records : List α) (pageSize : Nat) : Nat → List α → Option (List α)
  | 0, data => if records.length > data.length then none else some data
  | fuel + 1, data =>
    if records.length > data.length then
      paginate records pageSize fuel (data ++ fetchPage records pageSize data.length)
    else some data

/-- The whole fetch of get_panel: a first request without offset, then the
pagination loop.  The declared metadata count is the length of the full
record list held by the endpoint. -/
def fetchAllPages (records : List α) (pageSize : Nat) : Option (List α) :=
  paginate records pageSize (records.length + 1) (fetchPage records pageSize 0)

/-- One row of the merged frame: an observation date paired with the columns
of one fetched observation. -/
structure Row where
  observation_date : Nat
  realtime_start : Nat
  realtime_end : Nat
  date : Nat
  value : String
deriving DecidableEq

/-- Pairing of one observation date with one observation, as produced by the
cross merge. -/
def mkRow (od : Nat) (o : Obs) : Row :=
  { observation_date := od, realtime_start := o.realtime_start,
    realtime_end := o.realtime_end, date := o.date, value := o.value }

/-- Model of observation_df.merge(data, how=cross): every observation date
paired with every observation, observation dates outermost. -/
def crossMerge (ods : List Nat) (data : List Obs) : List Row :=
  ods.flatMap (fun od => data.map (mkRow od))

/-- Model of the boolean mask filter: keep rows with
realtime_start <= observation_date <= realtime_end. -/
def validFilter (df : List Row) : List Row :=
  df.filter (fun r => decide (r.realtime_start ≤ r.observation_date ∧
    r.observation_date ≤ r.realtime_end))

/-- Rows tagged with their positional index, starting at n. -/
def idxFrom : Nat → List α → List (Nat × α)
  | _, [] => []
  | n, a :: l => (n, a) :: idxFrom (n + 1) l

/-- Rows tagged with their positional index 0..n-1, the RangeIndex of the
frame. -/
def indexed (l : List α) : List (Nat × α) := idxFrom 0 l

/-- Ordering used by sort_values(date, ascending=False) on indexed rows:
larger value date first; equal value dates keep their positional order (a
deterministic stand in for the unspecified tie order of the pandas sort,
and the documented keep first behaviour of nlargest). -/
def dateDescLe (a b : Nat × Row) : Prop :=
  b.2.date < a.2.date ∨ (a.2.date = b.2.date ∧ a.1 ≤ b.1)

instance : DecidableRel dateDescLe := fun a b => by
  unfold dateDescLe
  exact inferInstance

instance : IsTotal (Nat × Row) dateDescLe :=
  ⟨fun a b => by
    unfold dateDescLe
    rcases Nat.lt_trichotomy a.2.date b.2.date with h | h | h
    · exact Or.inr (Or.inl h)
    · rcases Nat.le_total a.1 b.1 with h2 | h2
      · exact Or.inl (Or.inr ⟨h, h2⟩)
      · exact Or.inr (Or.inr ⟨h.symm, h2⟩)
    · exact Or.inl (Or.inl h)⟩

instance : IsTrans (Nat × Row) dateDescLe :=
  ⟨fun a b c hab hbc => by
    unfold dateDescLe at *
    rcases hab with h1 | ⟨e1, i1⟩
    · rcases hbc with h2 | ⟨e2, i2⟩
      · exact Or.inl (Nat.lt_trans h2 h1)
      · exact Or.inl (e2 ▸ h1)
    · rcases hbc with h2 | ⟨e2, i2⟩
      · exact Or.inl (e1 ▸ h2)
      · exact Or.inr ⟨e1.trans e2, Nat.le_trans i1 i2⟩⟩

/-- The frame sorted by value date descending (stable in the positional
index). -/
def sortDesc (l : List (Nat × Row)) : List (Nat × Row) :=
  List.insertionSort dateDescLe l

/-- Model of x.nlargest(n, date) on one group: pandas documents nlargest as
equivalent to sorting by the column descending and taking the head of n
rows, with ties resolved in favour of first occurrences (keep first). -/
def nlargestByDate (n : Nat) (g : List Row) : List Row :=
  ((sortDesc (indexed g)).take n).map Prod.snd

/-- The distinct group keys of groupby(observation_date), in ascending order
as pandas produces them. -/
def groupKeys (rows : List Row) : List Nat :=
  List.insertionSort (fun a b => a ≤ b) ((rows.map (fun r => r.observation_date)).dedup)

/-- Rows of one observation date group, in frame order. -/
def groupRows (rows : List Row) (k : Nat) : List Row :=
  rows.filter (fun r => decide (r.observation_date = k))

/-- Model of the window step: if window: df = df.groupby(observation_date)
.apply(lambda x: x.nlargest(window, date)).reset_index(drop=True).  A falsy
window skips the step entirely. -/
def applyWindow (window : Nat) (rows : List Row) : List Row :=
  if window = 0 then rows
  else (groupKeys rows).flatMap (fun k => nlargestByDate window (groupRows rows k))

/-- Cumulative count of the indexed row p within its observation date group
when the frame is sorted by value date descending: the number of rows of the
same group strictly before p in the sorted order. -/
def cumcount (rows : List Row) (p : Nat × Row) : Nat :=
  (((sortDesc (indexed rows)).takeWhile (fun y => decide (y ≠ p))).filter
    (fun y => decide (y.2.observation_date = p.2.observation_date))).length

/-- Model of the periods_back assignment: sort by value date descending,
group by observation date, take the cumulative count, realign it to the
frame by index, and add one. -/
def withPeriodsBack (rows : List Row) : List (Row × Nat) :=
  (indexed rows).map (fun p => (p.2, cumcount rows p + 1))

/-- The pair (observation_date, periods_back) of every row, the prospective
pivot keys. -/
def pivotKeys (l : List (Row × Nat)) : List (Nat × Nat) :=
  l.map (fun p => (p.1.observation_date, p.2))

/-- The cell of the pivoted frame at a given observation date and rank: the
value and value date of the row with that key, if any. -/
def lookupCell (l : List (Row × Nat)) (od pb : Nat) : Option (String × Nat) :=
  (l.find? (fun p => decide (p.1.observation_date = od) && decide (p.2 = pb))).map
    (fun p => (p.1.value, p.1.date))

/-- The row index of the pivoted frame: the distinct observation dates,
ascending. -/
def panelIndex (l : List (Row × Nat)) : List Nat :=
  List.insertionSort (fun a b => a ≤ b) ((l.map (fun p => p.1.observation_date)).dedup)

/-- The column level of the pivoted frame: the distinct periods_back values,
ascending. -/
def panelCols (l : List (Row × Nat)) : List Nat :=
  List.insertionSort (fun a b => a ≤ b) ((l.map (fun p => p.2)).dedup)

/-- One row of the final long table: stack(future_stack=True) keeps every
(observation date, rank) combination of the wide frame, including cells that
hold no data, which become missing values (none). -/
structure StackedRow where
  observation_date : Nat
  periods_back : Nat
  value : Option String
  date : Option Nat
deriving DecidableEq

/-- One cell of the stacked output: the content of the wide frame at a given
observation date and rank, or missing values when that cell holds no data. -/
def stackCell (l : List (Row × Nat)) (od pb : Nat) : StackedRow :=
  match lookupCell l od pb with
  | some vd => { observation_date := od, periods_back := pb,
                 value := some vd.1, date := some vd.2 }
  | none => { observation_date := od, periods_back := pb,
              value := none, date := none }

/-- Model of pivot followed by stack(future_stack=True): one output row per
observation date in the index and rank in the column level, holding the cell
content when the key is present and missing values when it is not. -/
def stackRows (l : List (Row × Nat)) : List StackedRow :=
  (panelIndex l).flatMap (fun od => (panelCols l).map (stackCell l od))

/-- Model of df.pivot(index=observation_date, columns=periods_back,
values=[value, date]) followed by stack: pivot raises when the same
(index, columns) pair occurs twice. -/
def pivotStack (l : List (Row × Nat)) : Except String (List StackedRow) :=
  if (pivotKeys l).Nodup then Except.ok (stackRows l)
  else Except.error "Index contains duplicate entries cannot reshape"

/-- Model of get_panel after the HTTP fetch: observation_dates.min() of an
empty collection of dates is NaT, whose strftime raises before any request
is made; then the fetched records go through date conversion, cross merge,
validity filter, window, ranking, pivot and stack. -/
def get_panel (observation_dates : List Nat) (raw : List RawObs) (window : Nat) :
    Except String (List StackedRow) :=
  if observation_dates.isEmpty then Except.error "NaTType does not support strftime"
  else
    match convertObs raw with
    | Except.error e => Except.error e
    | Except.ok data =>
      pivotStack (withPeriodsBack (applyWindow window
        (validFilter (crossMerge observation_dates data))))

/-! ## Pagination: claim C1 -/

theorem paginate_take (records : List α) (pageSize : Nat) (hp : 1 ≤ pageSize) :
    ∀ fuel n, records.length - n ≤ fuel →
      paginate records pageSize fuel (records.take n) = some records := by
  intro fuel
  induction fuel with
  | zero =>
    intro n hn
    have hlen : records.length ≤ n := by omega
    unfold paginate
    rw [List.take_of_length_le hlen]
    simp
  | succ fuel ih =>
    intro n hn
    by_cases hcase : records.length ≤ n
    · unfold paginate
      rw [List.take_of_length_le hcase]
      simp
    · push_neg at hcase
      have hlt : (records.take n).length = n := by
        rw [List.length_take]
        omega
      unfold paginate
      rw [hlt, if_pos hcase]
      have hpage : records.take n ++ fetchPage records pageSize n =
          records.take (n + pageSize) := by
        unfold fetchPage
        rw [List.take_add]
      rw [hpage]
      exact ih (n + pageSize) (by omega)

/-- C1: the pagination loop of get_panel terminates with exactly the declared
count of records, no duplicates and no gaps: whatever the page size (at least
one record per page), the fetch returns the full record list, each follow up
request reading at the offset equal to the number of records already
retrieved. -/
theorem pagination_exact (records : List α) (pageSize : Nat) (hp : 1 ≤ pageSize) :
    fetchAllPages records pageSize = some records := by
  unfold fetchAllPages
  have h0 : fetchPage records pageSize 0 = records.take pageSize := by
    unfold fetchPage
    rw [List.drop_zero]
  rw [h0]
  exact paginate_take records pageSize hp (records.length + 1) pageSize (by omega)

theorem pagination_exact_witness :
    1 ≤ 2 ∧ fetchAllPages [10, 20, 30, 40, 50] 2 = some [10, 20, 30, 40, 50] :=
  ⟨by decide, pagination_exact [10, 20, 30, 40, 50] 2 (by decide)⟩

/-! ## Cross merge and validity filter: claim C2 -/

theorem mkRow_inj {od od2 : Nat} {o o2 : Obs} (h : mkRow od o = mkRow od2 o2) :
    od = od2 ∧ o = o2 := by
  cases o
  cases o2
  simp only [mkRow, Row.mk.injEq] at h
  obtain ⟨h1, h2, h3, h4, h5⟩ := h
  exact ⟨h1, by simp [h2, h3, h4, h5]⟩

/-- C2: a pair formed by the cross product is kept by the validity filter iff
realtime_start <= observation_date <= realtime_end, both bounds inclusive. -/
theorem filter_keeps_iff_realtime_bounds (ods : List Nat) (data : List Obs)
    (od : Nat) (o : Obs) :
    mkRow od o ∈ validFilter (crossMerge ods data) ↔
      (od ∈ ods ∧ o ∈ data) ∧
        (o.realtime_start ≤ od ∧ od ≤ o.realtime_end) := by
  unfold validFilter crossMerge
  rw [List.mem_filter]
  simp only [List.mem_flatMap, List.mem_map, decide_eq_true_eq, mkRow]
  constructor
  · rintro ⟨⟨od2, hod2, o2, ho2, heq⟩, hb1, hb2⟩
    obtain ⟨h1, h2⟩ := mkRow_inj heq
    exact ⟨⟨h1 ▸ hod2, h2 ▸ ho2⟩, hb1, hb2⟩
  · rintro ⟨⟨hod, ho⟩, hb1, hb2⟩
    exact ⟨⟨od, hod, o, ho, rfl⟩, hb1, hb2⟩

/-! ## Positional index lemmas -/

theorem idxFrom_map_snd : ∀ (n : Nat) (l : List α), (idxFrom n l).map Prod.snd = l := by
  intro n l
  induction l generalizing n with
  | nil => rfl
  | cons a t ih => simp [idxFrom, ih]

theorem idxFrom_length : ∀ (n : Nat) (l : List α), (idxFrom n l).length = l.length := by
  intro n l
  induction l generalizing n with
  | nil => rfl
  | cons a t ih => simp [idxFrom, ih]

theorem idxFrom_fst_le : ∀ {n : Nat} {l : List α} {p : Nat × α}, p ∈ idxFrom n l → n ≤ p.1 := by
  intro n l
  induction l generalizing n with
  | nil => intro p h; cases h
  | cons a t ih =>
    intro p h
    simp only [idxFrom] at h
    rcases List.mem_cons.mp h with rfl | h2
    · exact Nat.le_refl n
    · exact Nat.le_of_succ_le (ih h2)

theorem idxFrom_pairwise_fst : ∀ (n : Nat) (l : List α),
    (idxFrom n l).Pairwise (fun a b => a.1 < b.1) := by
  intro n l
  induction l generalizing n with
  | nil => exact List.Pairwise.nil
  | cons a t ih =>
    refine List.Pairwise.cons ?_ (ih (n + 1))
    intro b hb
    exact Nat.lt_of_succ_le (idxFrom_fst_le hb)

theorem indexed_nodup (l : List α) : (indexed l).Nodup := by
  refine List.Pairwise.imp ?_ (idxFrom_pairwise_fst 0 l)
  intro a b h heq
  rw [heq] at h
  exact Nat.lt_irrefl b.1 h

theorem idxFrom_fst_inj : ∀ {n : Nat} {l : List α} {p q : Nat × α},
    p ∈ idxFrom n l → q ∈ idxFrom n l → p.1 = q.1 → p = q := by
  intro n l
  induction l generalizing n with
  | nil => intro p q h; cases h
  | cons a t ih =>
    intro p q hp hq heq
    rcases List.mem_cons.mp hp with rfl | hp2 <;> rcases List.mem_cons.mp hq with rfl | hq2
    · rfl
    · exact absurd heq (by have := idxFrom_fst_le hq2; simp at this ⊢; omega)
    · exact absurd heq (by have := idxFrom_fst_le hp2; simp at this ⊢; omega)
    · exact ih hp2 hq2 heq

theorem idxFrom_pairwise_snd {R : α → α → Prop} :
    ∀ {l : List α}, l.Pairwise R → ∀ (n : Nat), (idxFrom n l).Pairwise (fun a b => R a.2 b.2) := by
  intro l h
  induction h with
  | nil => intro n; exact List.Pairwise.nil
  | @cons a t ha ht ih =>
    intro n
    refine List.Pairwise.cons ?_ (ih (n + 1))
    intro b hb
    have : b.2 ∈ t := by
      have := List.mem_map_of_mem Prod.snd hb
      rwa [idxFrom_map_snd] at this
    exact ha b.2 this

/-- Two indexed rows of the same frame that compare both ways under the
descending order are equal: their value dates and positions agree, and the
position determines the row. -/
theorem dateDescLe_antisymm_on (rows : List Row) {p q : Nat × Row}
    (hp : p ∈ indexed rows) (hq : q ∈ indexed rows)
    (h1 : dateDescLe p q) (h2 : dateDescLe q p) : p = q := by
  rcases h1 with h1 | ⟨e1, i1⟩
  · rcases h2 with h2 | ⟨e2, i2⟩
    · omega
    · omega
  · rcases h2 with h2 | ⟨e2, i2⟩
    · omega
    · exact idxFrom_fst_inj hp hq (Nat.le_antisymm i1 i2)

/-! ## Sorted frame lemmas -/

theorem sortDesc_perm (l : List (Nat × Row)) : (sortDesc l).Perm l :=
  List.perm_insertionSort dateDescLe l

theorem sortDesc_sorted (l : List (Nat × Row)) : (sortDesc l).Pairwise dateDescLe :=
  List.sorted_insertionSort dateDescLe l

theorem sortDesc_indexed_nodup (rows : List Row) : (sortDesc (indexed rows)).Nodup :=
  ((sortDesc_perm (indexed rows)).symm).nodup (indexed_nodup rows)

/-- A permutation between two lists sorted under a relation that is
antisymmetric on their elements forces the lists to be equal. -/
theorem eq_of_perm_of_sorted_on {r : α → α → Prop} :
    ∀ {l1 l2 : List α}, l1.Perm l2 → l1.Pairwise r → l2.Pairwise r →
      (∀ x ∈ l1, ∀ y ∈ l1, r x y → r y x → x = y) → l1 = l2 := by
  intro l1
  induction l1 with
  | nil =>
    intro l2 hp _ _ _
    exact List.Perm.nil_eq hp
  | cons a t1 ih =>
    intro l2 hp hs1 hs2 hanti
    cases l2 with
    | nil => exact absurd (List.Perm.nil_eq hp.symm) (by simp)
    | cons b t2 =>
      have hab : a = b := by
        have hbmem : b ∈ a :: t1 := hp.mem_iff.mpr (List.mem_cons_self b t2)
        have hamem : a ∈ b :: t2 := hp.mem_iff.mp (List.mem_cons_self a t1)
        rcases List.mem_cons.mp hbmem with h | h
        · exact h.symm
        · rcases List.mem_cons.mp hamem with h2 | h2
          · exact h2
          · have r1 : r a b := List.rel_of_pairwise_cons hs1 h
            have r2 : r b a := List.rel_of_pairwise_cons hs2 h2
            exact hanti a (List.mem_cons_self a t1) b hbmem r1 r2
      subst hab
      have htp : t1.Perm t2 := hp.cons_inv
      have := ih htp hs1.of_cons hs2.of_cons
        (fun x hx y hy hxy hyx =>
          hanti x (List.mem_cons_of_mem a hx) y (List.mem_cons_of_mem a hy) hxy hyx)
      rw [this]

/-! ## The cumulative count characterisation -/

theorem takeWhile_ne_of_nodup [DecidableEq α] :
    ∀ {l1 l2 : List α} {p : α}, (l1 ++ p :: l2).Nodup →
      (l1 ++ p :: l2).takeWhile (fun y => decide (y ≠ p)) = l1 := by
  intro l1
  induction l1 with
  | nil =>
    intro l2 p h
    simp [List.takeWhile_cons]
  | cons a t ih =>
    intro l2 p h
    have hnd2 : (t ++ p :: l2).Nodup := (List.nodup_cons.mp h).2
    have hne : a ≠ p := by
      intro heq
      exact (List.nodup_cons.mp h).1
        (by rw [heq]; exact List.mem_append_right t (List.mem_cons_self p l2))
    rw [List.cons_append, List.takeWhile_cons, if_pos (by simp [hne]), ih hnd2]

/-- Splitting form of the cumulative count: the rows of the same group in
the sorted frame split around p, and the count of p is the length of the
part before it. -/
theorem cumcount_split (rows : List Row) (p : Nat × Row) (hp : p ∈ indexed rows) :
    ∃ A B, (sortDesc (indexed rows)).filter
        (fun y => decide (y.2.observation_date = p.2.observation_date)) = A ++ p :: B ∧
      cumcount rows p = A.length := by
  have hmem : p ∈ sortDesc (indexed rows) := (sortDesc_perm (indexed rows)).mem_iff.mpr hp
  obtain ⟨s1, s2, hsplit⟩ := List.append_of_mem hmem
  have hnd : (s1 ++ p :: s2).Nodup := hsplit ▸ sortDesc_indexed_nodup rows
  refine ⟨s1.filter (fun y => decide (y.2.observation_date = p.2.observation_date)),
    s2.filter (fun y => decide (y.2.observation_date = p.2.observation_date)), ?_, ?_⟩
  · rw [hsplit, List.filter_append, List.filter_cons]
    simp
  · unfold cumcount
    rw [hsplit, takeWhile_ne_of_nodup hnd]

/-- In a duplicate free list split around p, the position of p is the length
of the part before it. -/
theorem split_length_eq {l A B : List α} {p : α} (hnd : l.Nodup) (hsplit : l = A ++ p :: B)
    {j : Nat} (hj : j < l.length) (hget : l.get ⟨j, hj⟩ = p) : j = A.length := by
  subst hsplit
  have hlenA : A.length < (A ++ p :: B).length := by
    simp only [List.length_append, List.length_cons]
    omega
  have hgetA : (A ++ p :: B).get ⟨A.length, hlenA⟩ = p := by
    rw [List.get_eq_getElem, List.getElem_append_right (Nat.le_refl A.length)]
    simp
  have hfin : (⟨j, hj⟩ : Fin (A ++ p :: B).length) = ⟨A.length, hlenA⟩ :=
    (hnd.get_inj_iff).mp (by rw [hget, hgetA])
  exact congrArg Fin.val hfin

/-- The row at position j of the group restricted sorted frame has
cumulative count j. -/
theorem cumcount_groupSorted (rows : List Row) (d : Nat)
    (j : Fin ((sortDesc (indexed rows)).filter
      (fun y => decide (y.2.observation_date = d))).length) :
    cumcount rows (((sortDesc (indexed rows)).filter
      (fun y => decide (y.2.observation_date = d))).get j) = j.val := by
  have hpgs : ((sortDesc (indexed rows)).filter
      (fun y => decide (y.2.observation_date = d))).get j ∈
      (sortDesc (indexed rows)).filter (fun y => decide (y.2.observation_date = d)) :=
    List.get_mem _ j.val j.isLt
  have hpsort := List.mem_of_mem_filter hpgs
  have hpidx := (sortDesc_perm (indexed rows)).mem_iff.mp hpsort
  have hpod : (((sortDesc (indexed rows)).filter
      (fun y => decide (y.2.observation_date = d))).get j).2.observation_date = d := by
    have := List.of_mem_filter hpgs
    simpa using this
  obtain ⟨A, B, hAB, hcum⟩ := cumcount_split rows _ hpidx
  rw [hpod] at hAB
  have hnd : ((sortDesc (indexed rows)).filter
      (fun y => decide (y.2.observation_date = d))).Nodup :=
    List.Nodup.sublist (List.filter_sublist _) (sortDesc_indexed_nodup rows)
  rw [hcum]
  exact (split_length_eq hnd hAB j.isLt rfl).symm

/-- Two distinct rows of the same observation date group receive distinct
cumulative counts. -/
theorem cumcount_inj (rows : List Row) {p q : Nat × Row} (hp : p ∈ indexed rows)
    (hq : q ∈ indexed rows) (hod : p.2.observation_date = q.2.observation_date)
    (hne : p ≠ q) : cumcount rows p ≠ cumcount rows q := by
  have hps : p ∈ (sortDesc (indexed rows)).filter
      (fun y => decide (y.2.observation_date = p.2.observation_date)) :=
    List.mem_filter.mpr ⟨(sortDesc_perm _).mem_iff.mpr hp, by simp⟩
  have hqs : q ∈ (sortDesc (indexed rows)).filter
      (fun y => decide (y.2.observation_date = p.2.observation_date)) :=
    List.mem_filter.mpr ⟨(sortDesc_perm _).mem_iff.mpr hq, by simp [hod.symm]⟩
  obtain ⟨jp, hjp⟩ := List.mem_iff_get.mp hps
  obtain ⟨jq, hjq⟩ := List.mem_iff_get.mp hqs
  have cp := cumcount_groupSorted rows p.2.observation_date jp
  have cq := cumcount_groupSorted rows p.2.observation_date jq
  rw [hjp] at cp
  rw [hjq] at cq
  rw [cp, cq]
  intro hval
  have hnd : ((sortDesc (indexed rows)).filter
      (fun y => decide (y.2.observation_date = p.2.observation_date))).Nodup :=
    List.Nodup.sublist (List.filter_sublist _) (sortDesc_indexed_nodup rows)
  have hfin : jp = jq := Fin.ext hval
  exact hne (by rw [← hjp, ← hjq, hfin])

/-- The prospective pivot keys after the ranking step are duplicate free:
observation dates separate the groups and the ranks are distinct inside a
group. -/
theorem pivotKeys_withPeriodsBack_nodup (rows : List Row) :
    (pivotKeys (withPeriodsBack rows)).Nodup := by
  unfold pivotKeys withPeriodsBack
  rw [List.map_map]
  refine List.Nodup.map_on ?_ (indexed_nodup rows)
  intro a ha b hb heq
  by_contra hne
  have hod : a.2.observation_date = b.2.observation_date := by
    simpa using congrArg Prod.fst heq
  have hcum : cumcount rows a = cumcount rows b := by
    simpa using congrArg Prod.snd heq
  exact cumcount_inj rows ha hb hod hne hcum

/-- Ranking keeps the frame itself: dropping the periods_back column gives
back the rows in order. -/
theorem withPeriodsBack_map_fst (rows : List Row) :
    (withPeriodsBack rows).map Prod.fst = rows := by
  unfold withPeriodsBack
  rw [List.map_map]
  exact idxFrom_map_snd 0 rows

/-- On well formed input (at least one observation date, convertible raw
records) get_panel reaches the end of the pipeline and returns the stacked
long table. -/
theorem get_panel_ok (ods : List Nat) (raw : List RawObs) (data : List Obs) (w : Nat)
    (h1 : ods.isEmpty = false) (h2 : convertObs raw = Except.ok data) :
    get_panel ods raw w = Except.ok (stackRows (withPeriodsBack (applyWindow w
      (validFilter (crossMerge ods data))))) := by
  have hnd := pivotKeys_withPeriodsBack_nodup (applyWindow w (validFilter (crossMerge ods data)))
  simp [get_panel, h1, h2, pivotStack, hnd]

/-! ## Claims settled by the ranking and pivot lemmas -/

/-- C10: periods_back values are pairwise distinct within every observation
date group, so the pivot on (observation_date, periods_back) never sees a
duplicate index entry and its error branch is unreachable. -/
theorem periods_back_nodup_pivot_safe (rows : List Row) :
    (pivotKeys (withPeriodsBack rows)).Nodup ∧
    pivotStack (withPeriodsBack rows) = Except.ok (stackRows (withPeriodsBack rows)) := by
  refine ⟨pivotKeys_withPeriodsBack_nodup rows, ?_⟩
  unfold pivotStack
  rw [if_pos (pivotKeys_withPeriodsBack_nodup rows)]

/-- C5: with window 0 the window step is skipped, every qualifying row is
retained, each still receiving a periods_back rank, and get_panel pivots
exactly that unwindowed ranked frame. -/
theorem window_zero_keeps_all (ods : List Nat) (raw : List RawObs) (data : List Obs)
    (h1 : ods.isEmpty = false) (h2 : convertObs raw = Except.ok data) :
    applyWindow 0 (validFilter (crossMerge ods data)) = validFilter (crossMerge ods data) ∧
    (withPeriodsBack (validFilter (crossMerge ods data))).map Prod.fst =
      validFilter (crossMerge ods data) ∧
    get_panel ods raw 0 =
      Except.ok (stackRows (withPeriodsBack (validFilter (crossMerge ods data)))) := by
  have hskip : applyWindow 0 (validFilter (crossMerge ods data)) =
      validFilter (crossMerge ods data) := by
    simp [applyWindow]
  refine ⟨hskip, withPeriodsBack_map_fst _, ?_⟩
  have := get_panel_ok ods raw data 0 h1 h2
  rwa [hskip] at this

theorem window_zero_keeps_all_witness :
    ([20200315] : List Nat).isEmpty = false ∧
    convertObs [{ realtime_start := ⟨2020, 1, 1⟩, realtime_end := ⟨2020, 6, 30⟩,
                  date := ⟨2020, 1, 31⟩, value := "100" }] =
      Except.ok [{ realtime_start := 20200101, realtime_end := 20200630,
                   date := 20200131, value := "100" }] ∧
    (applyWindow 0 (validFilter (crossMerge [20200315]
        [{ realtime_start := 20200101, realtime_end := 20200630,
           date := 20200131, value := "100" }])) =
      validFilter (crossMerge [20200315]
        [{ realtime_start := 20200101, realtime_end := 20200630,
           date := 20200131, value := "100" }]) ∧
    (withPeriodsBack (validFilter (crossMerge [20200315]
        [{ realtime_start := 20200101, realtime_end := 20200630,
           date := 20200131, value := "100" }]))).map Prod.fst =
      validFilter (crossMerge [20200315]
        [{ realtime_start := 20200101, realtime_end := 20200630,
           date := 20200131, value := "100" }]) ∧
    get_panel [20200315]
        [{ realtime_start := ⟨2020, 1, 1⟩, realtime_end := ⟨2020, 6, 30⟩,
           date := ⟨2020, 1, 31⟩, value := "100" }] 0 =
      Except.ok (stackRows (withPeriodsBack (validFilter (crossMerge [20200315]
        [{ realtime_start := 20200101, realtime_end := 20200630,
           date := 20200131, value := "100" }]))))) :=
  ⟨rfl, rfl, window_zero_keeps_all [20200315] _ _ rfl rfl⟩

/-- C4 counterexample: two rows tied on value_date at the window boundary
with window 1; the claim says both tied rows are retained, yet the window
step keeps exactly one row (pandas nlargest defaults to keep first, which
never returns more than n rows). -/
theorem window_tie_counterexample :
    (validFilter (crossMerge [100]
      [{ realtime_start := 0, realtime_end := 200, date := 50, value := "a" },
       { realtime_start := 0, realtime_end := 200, date := 50, value := "b" }])).length = 2 ∧
    (applyWindow 1 (validFilter (crossMerge [100]
      [{ realtime_start := 0, realtime_end := 200, date := 50, value := "a" },
       { realtime_start := 0, realtime_end := 200, date := 50, value := "b" }]))).length = 1 :=
  ⟨rfl, rfl⟩

/-- C8: degenerate inputs raise instead of yielding an empty table.  With no
observation dates, min() of the dates is NaT and building the request
parameters raises; with an empty revision history, the empty frame has no
columns and the date conversion raises KeyError. -/
theorem empty_inputs_raise :
    get_panel []
        [{ realtime_start := ⟨2020, 1, 1⟩, realtime_end := ⟨2020, 6, 30⟩,
           date := ⟨2020, 1, 31⟩, value := "100" }] 24 =
      Except.error "NaTType does not support strftime" ∧
    get_panel [20200101] [] 24 = Except.error "KeyError realtime_start" :=
  ⟨rfl, rfl⟩

/-- C9: an observation whose realtime_end is the open ended sentinel
9999-12-31 makes the date conversion raise OutOfBoundsDatetime (the pandas
nanosecond range ends at 2262-04-11), so get_panel propagates an error
instead of comparing the interval. -/
theorem sentinel_realtime_end_raises :
    to_datetime ⟨9999, 12, 31⟩ = Except.error "OutOfBoundsDatetime" ∧
    get_panel [20200101]
      [{ realtime_start := ⟨2020, 1, 1⟩, realtime_end := ⟨9999, 12, 31⟩,
         date := ⟨2020, 1, 31⟩, value := "100" }] 24 =
      Except.error "OutOfBoundsDatetime" :=
  ⟨rfl, rfl⟩

/-! ## Group and window lemmas -/

theorem nlargestByDate_subset {n : Nat} {g : List Row} {r : Row}
    (h : r ∈ nlargestByDate n g) : r ∈ g := by
  unfold nlargestByDate at h
  obtain ⟨p, hp, rfl⟩ := List.mem_map.mp h
  have hsort : p ∈ sortDesc (indexed g) := (List.take_sublist n _).subset hp
  have hidx : p ∈ indexed g := (sortDesc_perm _).mem_iff.mp hsort
  have := List.mem_map_of_mem Prod.snd hidx
  unfold indexed at this
  rwa [idxFrom_map_snd] at this

theorem nlargestByDate_length (n : Nat) (g : List Row) :
    (nlargestByDate n g).length = min n g.length := by
  unfold nlargestByDate
  rw [List.length_map, List.length_take, (sortDesc_perm (indexed g)).length_eq]
  unfold indexed
  rw [idxFrom_length]

/-- The window output of a group is sorted by value date descending. -/
theorem nlargestByDate_sorted (n : Nat) (g : List Row) :
    (nlargestByDate n g).Pairwise (fun r s => s.date ≤ r.date) := by
  unfold nlargestByDate
  rw [List.pairwise_map]
  refine List.Pairwise.imp ?_
    (List.Pairwise.sublist (List.take_sublist n _) (sortDesc_sorted (indexed g)))
  intro a b hab
  rcases hab with h | ⟨h, _⟩
  · exact Nat.le_of_lt h
  · exact Nat.le_of_eq h.symm

/-- When the group has pairwise distinct value dates so does its window
output. -/
theorem nlargestByDate_dates_ne {n : Nat} {g : List Row}
    (h : g.Pairwise (fun r s => r.date ≠ s.date)) :
    (nlargestByDate n g).Pairwise (fun r s => r.date ≠ s.date) := by
  unfold nlargestByDate
  rw [List.pairwise_map]
  have hidx : (indexed g).Pairwise (fun a b => a.2.date ≠ b.2.date) :=
    idxFrom_pairwise_snd h 0
  have hsym : ∀ {x y : Nat × Row}, x.2.date ≠ y.2.date → y.2.date ≠ x.2.date :=
    fun h2 => h2.symm
  have hsorted : (sortDesc (indexed g)).Pairwise (fun a b => a.2.date ≠ b.2.date) :=
    ((sortDesc_perm (indexed g)).pairwise_iff hsym).mpr hidx
  exact List.Pairwise.sublist (List.take_sublist n _) hsorted

theorem groupKeys_nodup (rows : List Row) : (groupKeys rows).Nodup := by
  unfold groupKeys
  exact (List.perm_insertionSort _ _).symm.nodup (List.nodup_dedup _)

theorem mem_groupKeys {rows : List Row} {d : Nat} :
    d ∈ groupKeys rows ↔ ∃ r ∈ rows, r.observation_date = d := by
  unfold groupKeys
  rw [(List.perm_insertionSort _ _).mem_iff, List.mem_dedup, List.mem_map]

/-- A concatenation over duplicate free keys where at most the key d
contributes collapses to that single contribution. -/
theorem flatMap_eq_of_unique {κ : Type} {β : Type} [DecidableEq κ] :
    ∀ (keys : List κ) (f : κ → List β) (d : κ), keys.Nodup →
      (∀ k ∈ keys, k ≠ d → f k = []) → d ∈ keys → keys.flatMap f = f d := by
  intro keys
  induction keys with
  | nil => intro f d _ _ h; cases h
  | cons a t ih =>
    intro f d hnd hf hd
    rw [List.flatMap_cons]
    rcases List.mem_cons.mp hd with rfl | hdt
    · have : t.flatMap f = [] := by
        apply List.flatMap_eq_nil_iff.mpr
        intro k hk
        exact hf k (List.mem_cons_of_mem d hk)
          (fun he => (List.nodup_cons.mp hnd).1 (he ▸ hk))
      rw [this, List.append_nil]
    · have ha : a ≠ d := fun he => (List.nodup_cons.mp hnd).1 (he ▸ hdt)
      rw [hf a (List.mem_cons_self a t) ha, List.nil_append]
      exact ih f d (List.nodup_cons.mp hnd).2
        (fun k hk => hf k (List.mem_cons_of_mem a hk)) hdt

theorem flatMap_eq_nil_of_absent {κ : Type} {β : Type} [DecidableEq κ]
    (keys : List κ) (f : κ → List β) (d : κ)
    (hf : ∀ k ∈ keys, k ≠ d → f k = []) (hd : d ∉ keys) : keys.flatMap f = [] := by
  apply List.flatMap_eq_nil_iff.mpr
  intro k hk
  exact hf k hk (fun he => hd (he ▸ hk))

/-- The group of one observation date after the window step is exactly the
window output of that group. -/
theorem applyWindow_group (w : Nat) (hw : w ≠ 0) (rows : List Row) (d : Nat) :
    groupRows (applyWindow w rows) d = nlargestByDate w (groupRows rows d) := by
  unfold applyWindow
  rw [if_neg hw]
  unfold groupRows
  rw [List.filter_flatMap]
  by_cases hd : d ∈ groupKeys rows
  · rw [flatMap_eq_of_unique (groupKeys rows) _ d (groupKeys_nodup rows) ?_ hd]
    · apply List.filter_eq_self.mpr
      intro r hr
      have hrg : r ∈ rows.filter (fun r2 => decide (r2.observation_date = d)) :=
        nlargestByDate_subset hr
      simpa using List.of_mem_filter hrg
    · intro k hk hkd
      apply List.filter_eq_nil_iff.mpr
      intro r hr
      have hrg : r ∈ rows.filter (fun r2 => decide (r2.observation_date = k)) :=
        nlargestByDate_subset hr
      have hodk : r.observation_date = k := by
        simpa using List.of_mem_filter hrg
      simp [hodk, hkd]
  · have hgnil : rows.filter (fun r => decide (r.observation_date = d)) = [] := by
      apply List.filter_eq_nil_iff.mpr
      intro r hr hpred
      have : r.observation_date = d := by simpa using hpred
      exact hd (mem_groupKeys.mpr ⟨r, hr, this⟩)
    rw [flatMap_eq_nil_of_absent (groupKeys rows) _ d ?_ hd]
    · have hnil : nlargestByDate w ([] : List Row) = [] := by
        unfold nlargestByDate
        have h1 : sortDesc (indexed ([] : List Row)) = [] := rfl
        rw [h1, List.take_nil]
        rfl
      rw [hgnil, hnil]
    · intro k hk hkd
      apply List.filter_eq_nil_iff.mpr
      intro r hr
      have hrg : r ∈ rows.filter (fun r2 => decide (r2.observation_date = k)) :=
        nlargestByDate_subset hr
      have hodk : r.observation_date = k := by
        simpa using List.of_mem_filter hrg
      simp [hodk, hkd]

/-- Every row of the windowed frame comes from the original frame. -/
theorem applyWindow_subset {w : Nat} {rows : List Row} {r : Row}
    (h : r ∈ applyWindow w rows) : r ∈ rows := by
  unfold applyWindow at h
  by_cases hw : w = 0
  · rwa [if_pos hw] at h
  · rw [if_neg hw] at h
    obtain ⟨k, _, hr⟩ := List.mem_flatMap.mp h
    have hrg : r ∈ rows.filter (fun r2 => decide (r2.observation_date = k)) :=
      nlargestByDate_subset hr
    exact List.mem_of_mem_filter hrg

/-- C4 amended: when window is set, the window step keeps exactly
min(window, group size) rows for every observation date; ties at the window
boundary are resolved in favour of earlier rows (the keep first default of
nlargest) and the group never exceeds window rows. -/
theorem window_keeps_min_group (w : Nat) (hw : w ≠ 0) (rows : List Row) (d : Nat) :
    (groupRows (applyWindow w rows) d).length = min w (groupRows rows d).length := by
  rw [applyWindow_group w hw rows d, nlargestByDate_length]

theorem window_keeps_min_group_witness :
    (1 : Nat) ≠ 0 ∧
    (groupRows (applyWindow 1 (validFilter (crossMerge [100]
      [{ realtime_start := 0, realtime_end := 200, date := 50, value := "a" },
       { realtime_start := 0, realtime_end := 200, date := 50, value := "b" }]))) 100).length =
      min 1 (groupRows (validFilter (crossMerge [100]
      [{ realtime_start := 0, realtime_end := 200, date := 50, value := "a" },
       { realtime_start := 0, realtime_end := 200, date := 50, value := "b" }])) 100).length :=
  ⟨by decide, window_keeps_min_group 1 (by decide) _ 100⟩

/-! ## Stack and lookup lemmas -/

theorem stackCell_od (l : List (Row × Nat)) (od pb : Nat) :
    (stackCell l od pb).observation_date = od := by
  unfold stackCell
  cases lookupCell l od pb <;> rfl

theorem stackCell_pb (l : List (Row × Nat)) (od pb : Nat) :
    (stackCell l od pb).periods_back = pb := by
  unfold stackCell
  cases lookupCell l od pb <;> rfl

theorem panelIndex_nodup (l : List (Row × Nat)) : (panelIndex l).Nodup := by
  unfold panelIndex
  exact (List.perm_insertionSort _ _).symm.nodup (List.nodup_dedup _)

theorem panelCols_nodup (l : List (Row × Nat)) : (panelCols l).Nodup := by
  unfold panelCols
  exact (List.perm_insertionSort _ _).symm.nodup (List.nodup_dedup _)

theorem mem_panelIndex {l : List (Row × Nat)} {d : Nat} :
    d ∈ panelIndex l ↔ ∃ q ∈ l, q.1.observation_date = d := by
  unfold panelIndex
  rw [(List.perm_insertionSort _ _).mem_iff, List.mem_dedup, List.mem_map]

theorem mem_panelCols {l : List (Row × Nat)} {pb : Nat} :
    pb ∈ panelCols l ↔ ∃ q ∈ l, q.2 = pb := by
  unfold panelCols
  rw [(List.perm_insertionSort _ _).mem_iff, List.mem_dedup, List.mem_map]

/-- The column level of the pivot is strictly increasing. -/
theorem panelCols_sorted_lt (l : List (Row × Nat)) :
    (panelCols l).Pairwise (fun a b => a < b) := by
  have hle : (panelCols l).Pairwise (fun a b : Nat => a ≤ b) := by
    unfold panelCols
    exact List.sorted_insertionSort _ _
  have hne : (panelCols l).Pairwise (fun a b : Nat => a ≠ b) := panelCols_nodup l
  exact (hle.and hne).imp (fun h => Nat.lt_of_le_of_ne h.1 h.2)

/-- The rows of the stacked table for one observation date: all the cells of
that date when it occurs in the index, nothing otherwise. -/
theorem stackRows_filter (l : List (Row × Nat)) (d : Nat) :
    (stackRows l).filter (fun r => decide (r.observation_date = d)) =
      if d ∈ panelIndex l then (panelCols l).map (stackCell l d) else [] := by
  unfold stackRows
  rw [List.filter_flatMap]
  by_cases hd : d ∈ panelIndex l
  · rw [if_pos hd]
    rw [flatMap_eq_of_unique (panelIndex l) _ d (panelIndex_nodup l) ?_ hd]
    · apply List.filter_eq_self.mpr
      intro r hr
      obtain ⟨pb, _, rfl⟩ := List.mem_map.mp hr
      simp [stackCell_od]
    · intro k hk hkd
      apply List.filter_eq_nil_iff.mpr
      intro r hr
      obtain ⟨pb, _, rfl⟩ := List.mem_map.mp hr
      simp [stackCell_od, hkd]
  · rw [if_neg hd]
    apply flatMap_eq_nil_of_absent (panelIndex l) _ d ?_ hd
    intro k hk hkd
    apply List.filter_eq_nil_iff.mpr
    intro r hr
    obtain ⟨pb, _, rfl⟩ := List.mem_map.mp hr
    simp [stackCell_od, hkd]

theorem lookupCell_none_iff {l : List (Row × Nat)} {d pb : Nat} :
    lookupCell l d pb = none ↔ (d, pb) ∉ pivotKeys l := by
  unfold lookupCell
  rw [Option.map_eq_none', List.find?_eq_none]
  constructor
  · intro h hmem
    obtain ⟨q, hq, hkey⟩ := List.mem_map.mp hmem
    have h1 : q.1.observation_date = d := congrArg Prod.fst hkey
    have h2 : q.2 = pb := congrArg Prod.snd hkey
    exact h q hq (by simp [h1, h2])
  · intro h x hx hpred
    apply h
    have h1 : x.1.observation_date = d ∧ x.2 = pb := by
      simpa using hpred
    exact List.mem_map.mpr ⟨x, hx, by simp [h1.1, h1.2]⟩

/-- With duplicate free keys, the pivot cell of a present key is the value
and value date of its unique row. -/
theorem lookupCell_eq_of_mem :
    ∀ {l : List (Row × Nat)}, (pivotKeys l).Nodup →
      ∀ {q : Row × Nat}, q ∈ l →
        lookupCell l q.1.observation_date q.2 = some (q.1.value, q.1.date) := by
  intro l
  induction l with
  | nil => intro _ q hq; cases hq
  | cons a t ih =>
    intro hnd q hq
    have hndt : (pivotKeys t).Nodup := by
      have : pivotKeys (a :: t) = (a.1.observation_date, a.2) :: pivotKeys t := rfl
      rw [this] at hnd
      exact (List.nodup_cons.mp hnd).2
    unfold lookupCell
    rw [List.find?_cons]
    by_cases hpa : a.1.observation_date = q.1.observation_date ∧ a.2 = q.2
    · have hpred : (decide (a.1.observation_date = q.1.observation_date) &&
          decide (a.2 = q.2)) = true := by simp [hpa.1, hpa.2]
      rw [hpred]
      rcases List.mem_cons.mp hq with rfl | hqt
      · rfl
      · exfalso
        have hkq : (q.1.observation_date, q.2) ∈ pivotKeys t :=
          List.mem_map.mpr ⟨q, hqt, rfl⟩
        have : pivotKeys (a :: t) = (a.1.observation_date, a.2) :: pivotKeys t := rfl
        rw [this] at hnd
        exact (List.nodup_cons.mp hnd).1 (by rw [hpa.1, hpa.2]; exact hkq)
    · have hpred : (decide (a.1.observation_date = q.1.observation_date) &&
          decide (a.2 = q.2)) = false := by
        by_cases h1 : a.1.observation_date = q.1.observation_date
        · by_cases h2 : a.2 = q.2
          · exact absurd ⟨h1, h2⟩ hpa
          · simp [h2]
        · simp [h1]
      rw [hpred]
      rcases List.mem_cons.mp hq with rfl | hqt
      · exact absurd ⟨rfl, rfl⟩ hpa
      · exact ih hndt hqt

/-! ## Ranked frame lemmas -/

theorem idxFrom_map_fst : ∀ (n : Nat) (l : List α),
    (idxFrom n l).map Prod.fst = List.range' n l.length := by
  intro n l
  induction l generalizing n with
  | nil => rfl
  | cons a t ih =>
    simp only [idxFrom, List.map_cons, List.length_cons, List.range'_succ]
    rw [ih (n + 1)]

theorem idxFrom_get : ∀ (n : Nat) (l : List α) (j : Nat) (h1 : j < l.length)
    (h2 : j < (idxFrom n l).length),
    (idxFrom n l).get ⟨j, h2⟩ = (n + j, l.get ⟨j, h1⟩) := by
  intro n l
  induction l generalizing n with
  | nil => intro j h1 h2; exact absurd h1 (Nat.not_lt_zero j)
  | cons a t ih =>
    intro j h1 h2
    cases j with
    | zero => simp [idxFrom]
    | succ k =>
      have h1t : k < t.length := Nat.lt_of_succ_lt_succ h1
      have h2t : k < (idxFrom (n + 1) t).length := by
        rw [idxFrom_length]
        exact h1t
      show ((n, a) :: idxFrom (n + 1) t).get ⟨k + 1, _⟩ = _
      rw [List.get_cons_succ, ih (n + 1) k h1t h2t]
      simp only [Prod.mk.injEq]
      refine ⟨by omega, ?_⟩
      rw [List.get_cons_succ]

/-- Two strictly increasing lists of naturals with the same members are
equal. -/
theorem strictSorted_eq_of_mem_iff :
    ∀ {l1 l2 : List Nat}, l1.Pairwise (fun a b => a < b) →
      l2.Pairwise (fun a b => a < b) → (∀ x, x ∈ l1 ↔ x ∈ l2) → l1 = l2 := by
  intro l1
  induction l1 with
  | nil =>
    intro l2 _ _ hm
    cases l2 with
    | nil => rfl
    | cons b t2 => exact absurd ((hm b).mpr (List.mem_cons_self b t2)) (List.not_mem_nil b)
  | cons a t1 ih =>
    intro l2 h1 h2 hm
    cases l2 with
    | nil => exact absurd ((hm a).mp (List.mem_cons_self a t1)) (List.not_mem_nil a)
    | cons b t2 =>
      have hab : a = b := by
        have hamem : a ∈ b :: t2 := (hm a).mp (List.mem_cons_self a t1)
        have hbmem : b ∈ a :: t1 := (hm b).mpr (List.mem_cons_self b t2)
        rcases List.mem_cons.mp hamem with h | ha2
        · exact h
        · rcases List.mem_cons.mp hbmem with h | hb2
          · exact h.symm
          · have hx := List.rel_of_pairwise_cons h1 hb2
            have hy := List.rel_of_pairwise_cons h2 ha2
            omega
      subst hab
      have hmt : ∀ x, x ∈ t1 ↔ x ∈ t2 := by
        intro x
        constructor
        · intro hx
          have hlt := List.rel_of_pairwise_cons h1 hx
          rcases List.mem_cons.mp ((hm x).mp (List.mem_cons_of_mem a hx)) with rfl | h
          · omega
          · exact h
        · intro hx
          have hlt := List.rel_of_pairwise_cons h2 hx
          rcases List.mem_cons.mp ((hm x).mpr (List.mem_cons_of_mem a hx)) with rfl | h
          · omega
          · exact h
      rw [ih h1.of_cons h2.of_cons hmt]

/-- The cumulative count is below the size of the group. -/
theorem cumcount_lt_group (rows : List Row) (p : Nat × Row) (hp : p ∈ indexed rows) :
    cumcount rows p < ((indexed rows).filter
      (fun y => decide (y.2.observation_date = p.2.observation_date))).length := by
  obtain ⟨A, B, hAB, hcum⟩ := cumcount_split rows p hp
  have hlen := (List.Perm.filter
    (fun y => decide (y.2.observation_date = p.2.observation_date))
    (sortDesc_perm (indexed rows))).length_eq
  rw [hAB] at hlen
  rw [hcum, ← hlen]
  simp only [List.length_append, List.length_cons]
  omega

theorem indexed_filter_map_snd (rows : List Row) (d : Nat) :
    ((indexed rows).filter (fun y => decide (y.2.observation_date = d))).map Prod.snd =
      rows.filter (fun r => decide (r.observation_date = d)) := by
  conv_rhs => rw [← idxFrom_map_snd 0 rows]
  rw [List.filter_map]
  rfl

theorem indexed_filter_length (rows : List Row) (d : Nat) :
    ((indexed rows).filter (fun y => decide (y.2.observation_date = d))).length =
      (rows.filter (fun r => decide (r.observation_date = d))).length := by
  rw [← indexed_filter_map_snd rows d, List.length_map]

theorem withPeriodsBack_filter (rows : List Row) (d : Nat) :
    (withPeriodsBack rows).filter (fun q => decide (q.1.observation_date = d)) =
      ((indexed rows).filter (fun p => decide (p.2.observation_date = d))).map
        (fun p => (p.2, cumcount rows p + 1)) := by
  unfold withPeriodsBack
  rw [List.filter_map]
  rfl

/-- When the rows of one observation date appear in the frame already sorted
by value date descending, the ranking gives them periods_back 1, 2, ... in
frame order. -/
theorem withPeriodsBack_group_eq (rows : List Row) (d : Nat)
    (hsort : ((indexed rows).filter
      (fun p => decide (p.2.observation_date = d))).Pairwise dateDescLe) :
    (withPeriodsBack rows).filter (fun q => decide (q.1.observation_date = d)) =
      (idxFrom 0 ((indexed rows).filter (fun p => decide (p.2.observation_date = d)))).map
        (fun jp => (jp.2.2, jp.1 + 1)) := by
  rw [withPeriodsBack_filter]
  have hperm : ((sortDesc (indexed rows)).filter
      (fun p => decide (p.2.observation_date = d))).Perm
      ((indexed rows).filter (fun p => decide (p.2.observation_date = d))) :=
    List.Perm.filter _ (sortDesc_perm (indexed rows))
  have hgs : ((sortDesc (indexed rows)).filter
      (fun p => decide (p.2.observation_date = d))).Pairwise dateDescLe :=
    List.Pairwise.sublist (List.filter_sublist _) (sortDesc_sorted _)
  have hanti : ∀ x ∈ (sortDesc (indexed rows)).filter
      (fun p => decide (p.2.observation_date = d)),
      ∀ y ∈ (sortDesc (indexed rows)).filter
      (fun p => decide (p.2.observation_date = d)),
      dateDescLe x y → dateDescLe y x → x = y := by
    intro x hx y hy hxy hyx
    have hxi : x ∈ indexed rows := (sortDesc_perm _).mem_iff.mp (List.mem_of_mem_filter hx)
    have hyi : y ∈ indexed rows := (sortDesc_perm _).mem_iff.mp (List.mem_of_mem_filter hy)
    exact dateDescLe_antisymm_on rows hxi hyi hxy hyx
  have heq := eq_of_perm_of_sorted_on hperm hgs hsort hanti
  rw [← heq]
  apply List.ext_getElem
  · rw [List.length_map, List.length_map, idxFrom_length]
  · intro j hj1 hj2
    have hj : j < ((sortDesc (indexed rows)).filter
        (fun p => decide (p.2.observation_date = d))).length := by
      simpa using hj1
    have hjidx : j < (idxFrom 0 ((sortDesc (indexed rows)).filter
        (fun p => decide (p.2.observation_date = d)))).length := by
      rw [idxFrom_length]
      exact hj
    rw [List.getElem_map, List.getElem_map]
    have hidxj := idxFrom_get 0 _ j hj hjidx
    rw [List.get_eq_getElem, List.get_eq_getElem] at hidxj
    rw [hidxj]
    have hcum := cumcount_groupSorted rows d ⟨j, hj⟩
    rw [List.get_eq_getElem] at hcum
    simp only [hcum]
    simp

theorem mem_withPeriodsBack {rows : List Row} {q : Row × Nat} :
    q ∈ withPeriodsBack rows ↔
      ∃ p ∈ indexed rows, (p.2, cumcount rows p + 1) = q := by
  unfold withPeriodsBack
  rw [List.mem_map]

/-- Every rank of the ranked frame is at least one. -/
theorem withPeriodsBack_pb_pos {rows : List Row} {q : Row × Nat}
    (hq : q ∈ withPeriodsBack rows) : 1 ≤ q.2 := by
  obtain ⟨p, hp, heq⟩ := mem_withPeriodsBack.mp hq
  rw [← heq]
  exact Nat.succ_le_succ (Nat.zero_le _)

/-- After a nonzero window, every rank of the ranked frame is at most the
window. -/
theorem withPeriodsBack_pb_le {w : Nat} (hw : w ≠ 0) {rows : List Row}
    {q : Row × Nat} (hq : q ∈ withPeriodsBack (applyWindow w rows)) : q.2 ≤ w := by
  obtain ⟨p, hp, heq⟩ := mem_withPeriodsBack.mp hq
  have hlt := cumcount_lt_group (applyWindow w rows) p hp
  rw [indexed_filter_length] at hlt
  have hgrp : (applyWindow w rows).filter
      (fun r => decide (r.observation_date = p.2.observation_date)) =
      nlargestByDate w (groupRows rows p.2.observation_date) :=
    applyWindow_group w hw rows p.2.observation_date
  rw [hgrp, nlargestByDate_length] at hlt
  have hmin : min w (groupRows rows p.2.observation_date).length ≤ w := Nat.min_le_left _ _
  rw [← heq]
  omega

/-- After the window step the rows of one observation date stand in the
frame sorted by value date descending, so their indexed forms are sorted
under the descending order. -/
theorem indexed_group_sorted (w : Nat) (hw : w ≠ 0) (rows : List Row) (d : Nat) :
    ((indexed (applyWindow w rows)).filter
      (fun p => decide (p.2.observation_date = d))).Pairwise dateDescLe := by
  have h1 : ((indexed (applyWindow w rows)).filter
      (fun p => decide (p.2.observation_date = d))).Pairwise (fun a b => a.1 < b.1) :=
    List.Pairwise.sublist (List.filter_sublist _) (idxFrom_pairwise_fst 0 _)
  have h2 : ((indexed (applyWindow w rows)).filter
      (fun p => decide (p.2.observation_date = d))).Pairwise
      (fun a b => b.2.date ≤ a.2.date) := by
    have hsorted : ((applyWindow w rows).filter
        (fun r => decide (r.observation_date = d))).Pairwise
        (fun r s => s.date ≤ r.date) := by
      have hgrp : (applyWindow w rows).filter
          (fun r => decide (r.observation_date = d)) =
          nlargestByDate w (groupRows rows d) := applyWindow_group w hw rows d
      rw [hgrp]
      exact nlargestByDate_sorted w _
    rw [← indexed_filter_map_snd (applyWindow w rows) d] at hsorted
    exact (List.pairwise_map).mp hsorted
  refine (h2.and h1).imp ?_
  intro a b hab
  rcases Nat.lt_or_ge b.2.date a.2.date with h | h
  · exact Or.inl h
  · exact Or.inr ⟨Nat.le_antisymm h hab.1, Nat.le_of_lt hab.2⟩

/-- After a nonzero window, the ranked rows of one observation date are the
group rows in frame order paired with ranks 1, 2, ... -/
theorem windowed_group_ranked (w : Nat) (hw : w ≠ 0) (rows : List Row) (d : Nat) :
    (withPeriodsBack (applyWindow w rows)).filter
        (fun q => decide (q.1.observation_date = d)) =
      (idxFrom 0 ((indexed (applyWindow w rows)).filter
        (fun p => decide (p.2.observation_date = d)))).map (fun jp => (jp.2.2, jp.1 + 1)) :=
  withPeriodsBack_group_eq _ d (indexed_group_sorted w hw rows d)

/-- The periods_back values of one observation date, in output order, are
exactly 1..k for k the size of the windowed group. -/
theorem windowed_group_pb (w : Nat) (hw : w ≠ 0) (rows : List Row) (d : Nat) :
    ((withPeriodsBack (applyWindow w rows)).filter
        (fun q => decide (q.1.observation_date = d))).map Prod.snd =
      List.range' 1 ((applyWindow w rows).filter
        (fun r => decide (r.observation_date = d))).length := by
  rw [windowed_group_ranked w hw rows d, List.map_map]
  have hcomp : (Prod.snd ∘ fun jp : Nat × (Nat × Row) => (jp.2.2, jp.1 + 1)) =
      (fun jp : Nat × (Nat × Row) => 1 + jp.1) := by
    funext jp
    simp [Nat.add_comm]
  rw [hcomp]
  have : (fun jp : Nat × (Nat × Row) => 1 + jp.1) =
      ((fun x => 1 + x) ∘ Prod.fst) := rfl
  rw [this, ← List.map_map, idxFrom_map_fst, List.map_add_range']
  rw [indexed_filter_length]

/-- Every rank from 1 to the windowed group size occurs for that date. -/
theorem rank_exists (w : Nat) (hw : w ≠ 0) (rows : List Row) (d : Nat) {j : Nat}
    (hj1 : 1 ≤ j)
    (hj2 : j ≤ ((applyWindow w rows).filter
      (fun r => decide (r.observation_date = d))).length) :
    ∃ q ∈ withPeriodsBack (applyWindow w rows),
      q.1.observation_date = d ∧ q.2 = j := by
  have hmem : j ∈ ((withPeriodsBack (applyWindow w rows)).filter
      (fun q => decide (q.1.observation_date = d))).map Prod.snd := by
    rw [windowed_group_pb w hw rows d]
    exact List.mem_range'_1.mpr ⟨hj1, by omega⟩
  obtain ⟨q, hq, hqj⟩ := List.mem_map.mp hmem
  refine ⟨q, List.mem_of_mem_filter hq, ?_, hqj⟩
  simpa using List.of_mem_filter hq

/-- A pivot key (d, pb) occurs after the window step iff pb is between 1 and
the windowed group size of d. -/
theorem pivotKey_group_iff (w : Nat) (hw : w ≠ 0) (rows : List Row) (d pb : Nat) :
    (d, pb) ∈ pivotKeys (withPeriodsBack (applyWindow w rows)) ↔
      1 ≤ pb ∧ pb ≤ ((applyWindow w rows).filter
        (fun r => decide (r.observation_date = d))).length := by
  unfold pivotKeys
  rw [List.mem_map]
  constructor
  · rintro ⟨q, hq, hkey⟩
    have h1 : q.1.observation_date = d := congrArg Prod.fst hkey
    have h2 : q.2 = pb := congrArg Prod.snd hkey
    have hqf : q ∈ (withPeriodsBack (applyWindow w rows)).filter
        (fun q2 => decide (q2.1.observation_date = d)) :=
      List.mem_filter.mpr ⟨hq, by simp [h1]⟩
    have hpb : q.2 ∈ ((withPeriodsBack (applyWindow w rows)).filter
        (fun q2 => decide (q2.1.observation_date = d))).map Prod.snd :=
      List.mem_map_of_mem Prod.snd hqf
    rw [windowed_group_pb w hw rows d] at hpb
    have := List.mem_range'_1.mp hpb
    omega
  · rintro ⟨hpb1, hpb2⟩
    obtain ⟨q, hq, hod, hj⟩ := rank_exists w hw rows d hpb1 hpb2
    exact ⟨q, hq, by rw [hod, hj]⟩

/-- The pivot cell at (d, j + 1) after the window step holds the value and
value date of the row at position j of the windowed group of d. -/
theorem lookup_windowed (w : Nat) (hw : w ≠ 0) (rows : List Row) (d : Nat)
    {j : Nat} (hj : j < ((indexed (applyWindow w rows)).filter
      (fun p => decide (p.2.observation_date = d))).length) :
    lookupCell (withPeriodsBack (applyWindow w rows)) d (j + 1) =
      some ((((indexed (applyWindow w rows)).filter
          (fun p => decide (p.2.observation_date = d))).get ⟨j, hj⟩).2.value,
        (((indexed (applyWindow w rows)).filter
          (fun p => decide (p.2.observation_date = d))).get ⟨j, hj⟩).2.date) := by
  have hjidx : j < (idxFrom 0 ((indexed (applyWindow w rows)).filter
      (fun p => decide (p.2.observation_date = d)))).length := by
    rw [idxFrom_length]
    exact hj
  have hgetidx := idxFrom_get 0 _ j hj hjidx
  have hmemidx : (0 + j, ((indexed (applyWindow w rows)).filter
      (fun p => decide (p.2.observation_date = d))).get ⟨j, hj⟩) ∈
      idxFrom 0 ((indexed (applyWindow w rows)).filter
        (fun p => decide (p.2.observation_date = d))) := by
    rw [← hgetidx]
    exact List.get_mem _ j hjidx
  have hmemmap := List.mem_map_of_mem (fun jp : Nat × (Nat × Row) => (jp.2.2, jp.1 + 1)) hmemidx
  rw [← windowed_group_ranked w hw rows d] at hmemmap
  have hmemL := List.mem_of_mem_filter hmemmap
  have hod : (((indexed (applyWindow w rows)).filter
      (fun p => decide (p.2.observation_date = d))).get ⟨j, hj⟩).2.observation_date = d := by
    have := List.of_mem_filter (List.get_mem ((indexed (applyWindow w rows)).filter
      (fun p => decide (p.2.observation_date = d))) j hj)
    simpa using this
  have := lookupCell_eq_of_mem (pivotKeys_withPeriodsBack_nodup (applyWindow w rows)) hmemL
  rw [hod] at this
  simpa [Nat.zero_add] using this

/-- Full window behaviour of the stacked output on one observation date:
with at least window qualifying rows of pairwise distinct value dates, the
date gets exactly the ranks 1..window, each carrying data, and a smaller
rank holds a strictly larger value date. -/
theorem stack_group_full (w : Nat) (hw : w ≠ 0) (rows : List Row) (d : Nat)
    (hk : w ≤ (rows.filter (fun r => decide (r.observation_date = d))).length)
    (hdates : (rows.filter (fun r => decide (r.observation_date = d))).Pairwise
      (fun r s => r.date ≠ s.date)) :
    ((stackRows (withPeriodsBack (applyWindow w rows))).filter
        (fun r => decide (r.observation_date = d))).map (fun r => r.periods_back) =
      List.range' 1 w ∧
    (∀ r ∈ (stackRows (withPeriodsBack (applyWindow w rows))).filter
        (fun r2 => decide (r2.observation_date = d)),
      ∃ v dt, r.value = some v ∧ r.date = some dt) ∧
    (∀ r s, r ∈ (stackRows (withPeriodsBack (applyWindow w rows))).filter
        (fun r2 => decide (r2.observation_date = d)) →
      s ∈ (stackRows (withPeriodsBack (applyWindow w rows))).filter
        (fun r2 => decide (r2.observation_date = d)) →
      r.periods_back < s.periods_back →
      ∀ a b, r.date = some a → s.date = some b → b < a) := by
  have hkd : ((applyWindow w rows).filter
      (fun r => decide (r.observation_date = d))).length = w := by
    have hgrp : (applyWindow w rows).filter (fun r => decide (r.observation_date = d)) =
        nlargestByDate w (groupRows rows d) := applyWindow_group w hw rows d
    have hglen : (groupRows rows d).length =
        (rows.filter (fun r => decide (r.observation_date = d))).length := rfl
    rw [hgrp, nlargestByDate_length, hglen]
    omega
  have hfslen : ((indexed (applyWindow w rows)).filter
      (fun p => decide (p.2.observation_date = d))).length = w := by
    rw [indexed_filter_length, hkd]
  have hcols : panelCols (withPeriodsBack (applyWindow w rows)) = List.range' 1 w := by
    apply strictSorted_eq_of_mem_iff (panelCols_sorted_lt _) (List.pairwise_lt_range' 1 w)
    intro pb
    rw [List.mem_range'_1, mem_panelCols]
    constructor
    · rintro ⟨q, hq, rfl⟩
      have := withPeriodsBack_pb_le hw hq
      exact ⟨withPeriodsBack_pb_pos hq, by omega⟩
    · rintro ⟨hpb1, hpb2⟩
      obtain ⟨q, hq, hod, hj⟩ := rank_exists w hw rows d hpb1 (by rw [hkd]; omega)
      exact ⟨q, hq, hj⟩
  have hdidx : d ∈ panelIndex (withPeriodsBack (applyWindow w rows)) := by
    obtain ⟨q, hq, hod, _⟩ := rank_exists w hw rows d (Nat.le_refl 1)
      (by rw [hkd]; omega)
    exact mem_panelIndex.mpr ⟨q, hq, hod⟩
  have hrows : (stackRows (withPeriodsBack (applyWindow w rows))).filter
      (fun r => decide (r.observation_date = d)) =
      (List.range' 1 w).map (stackCell (withPeriodsBack (applyWindow w rows)) d) := by
    rw [stackRows_filter, if_pos hdidx, hcols]
  have hfs_ne : ((indexed (applyWindow w rows)).filter
      (fun p => decide (p.2.observation_date = d))).Pairwise
      (fun a b => a.2.date ≠ b.2.date) := by
    have h : (nlargestByDate w (groupRows rows d)).Pairwise
        (fun r s => r.date ≠ s.date) := nlargestByDate_dates_ne hdates
    rw [← applyWindow_group w hw rows d] at h
    have h2 : ((applyWindow w rows).filter
        (fun r => decide (r.observation_date = d))).Pairwise
        (fun r s => r.date ≠ s.date) := h
    rw [← indexed_filter_map_snd (applyWindow w rows) d] at h2
    exact (@List.pairwise_map (Nat × Row) Row Prod.snd
      (fun r s => r.date ≠ s.date) _).mp h2
  have hfs_lt : ((indexed (applyWindow w rows)).filter
      (fun p => decide (p.2.observation_date = d))).Pairwise
      (fun a b => b.2.date < a.2.date) := by
    refine ((indexed_group_sorted w hw rows d).and hfs_ne).imp ?_
    intro a b hab
    rcases hab.1 with h | ⟨he, _⟩
    · exact h
    · exact absurd he hab.2
  refine ⟨?_, ?_, ?_⟩
  · rw [hrows, List.map_map]
    have : ((fun r : StackedRow => r.periods_back) ∘
        stackCell (withPeriodsBack (applyWindow w rows)) d) = (fun pb => pb) := by
      funext pb
      exact stackCell_pb _ d pb
    rw [this]
    exact List.map_id' _
  · intro r hr
    rw [hrows] at hr
    obtain ⟨pb, hpb, rfl⟩ := List.mem_map.mp hr
    have hbounds := List.mem_range'_1.mp hpb
    have hkey : (d, pb) ∈ pivotKeys (withPeriodsBack (applyWindow w rows)) :=
      (pivotKey_group_iff w hw rows d pb).mpr ⟨hbounds.1, by rw [hkd]; omega⟩
    cases hcell : lookupCell (withPeriodsBack (applyWindow w rows)) d pb with
    | none => exact absurd hkey (lookupCell_none_iff.mp hcell)
    | some vd =>
      refine ⟨vd.1, vd.2, ?_, ?_⟩ <;> simp [stackCell, hcell]
  · intro r s hr hs hlt a b ha hb
    rw [hrows] at hr hs
    obtain ⟨pbr, hpbr, rfl⟩ := List.mem_map.mp hr
    obtain ⟨pbs, hpbs, rfl⟩ := List.mem_map.mp hs
    rw [stackCell_pb, stackCell_pb] at hlt
    have hbr := List.mem_range'_1.mp hpbr
    have hbs := List.mem_range'_1.mp hpbs
    have hjr : pbr - 1 < ((indexed (applyWindow w rows)).filter
        (fun p => decide (p.2.observation_date = d))).length := by
      rw [hfslen]
      omega
    have hjs : pbs - 1 < ((indexed (applyWindow w rows)).filter
        (fun p => decide (p.2.observation_date = d))).length := by
      rw [hfslen]
      omega
    have hlr := lookup_windowed w hw rows d hjr
    have hls := lookup_windowed w hw rows d hjs
    rw [show pbr - 1 + 1 = pbr from by omega] at hlr
    rw [show pbs - 1 + 1 = pbs from by omega] at hls
    have hda : a = (((indexed (applyWindow w rows)).filter
        (fun p => decide (p.2.observation_date = d))).get ⟨pbr - 1, hjr⟩).2.date := by
      have hcell : (stackCell (withPeriodsBack (applyWindow w rows)) d pbr).date =
          some (((indexed (applyWindow w rows)).filter
            (fun p => decide (p.2.observation_date = d))).get ⟨pbr - 1, hjr⟩).2.date := by
        simp [stackCell, hlr]
      have := ha.symm.trans hcell
      exact Option.some.inj this
    have hdb : b = (((indexed (applyWindow w rows)).filter
        (fun p => decide (p.2.observation_date = d))).get ⟨pbs - 1, hjs⟩).2.date := by
      have hcell : (stackCell (withPeriodsBack (applyWindow w rows)) d pbs).date =
          some (((indexed (applyWindow w rows)).filter
            (fun p => decide (p.2.observation_date = d))).get ⟨pbs - 1, hjs⟩).2.date := by
        simp [stackCell, hls]
      have := hb.symm.trans hcell
      exact Option.some.inj this
    have hpos := List.pairwise_iff_getElem.mp hfs_lt (pbr - 1) (pbs - 1) hjr hjs (by omega)
    rw [hda, hdb, List.get_eq_getElem, List.get_eq_getElem]
    exact hpos

/-- C3: an observation date with at least window qualifying observations of
pairwise distinct value dates yields exactly window ranked rows in the
panel: its periods_back values are 1..window, every such row carries a value
and a value date, and a smaller periods_back holds a strictly larger value
date (value date descending, rank 1 most recent). -/
theorem window_cap_ranks (ods : List Nat) (raw : List RawObs) (data : List Obs)
    (w d : Nat) (h1 : ods.isEmpty = false) (h2 : convertObs raw = Except.ok data)
    (hw : w ≠ 0)
    (hk : w ≤ ((validFilter (crossMerge ods data)).filter
        (fun r => decide (r.observation_date = d))).length)
    (hdates : ((validFilter (crossMerge ods data)).filter
        (fun r => decide (r.observation_date = d))).Pairwise
        (fun r s => r.date ≠ s.date)) :
    ∃ out, get_panel ods raw w = Except.ok out ∧
      ((out.filter (fun r => decide (r.observation_date = d))).map
        (fun r => r.periods_back) = List.range' 1 w) ∧
      (∀ r ∈ out.filter (fun r2 => decide (r2.observation_date = d)),
        ∃ v dt, r.value = some v ∧ r.date = some dt) ∧
      (∀ r s, r ∈ out.filter (fun r2 => decide (r2.observation_date = d)) →
        s ∈ out.filter (fun r2 => decide (r2.observation_date = d)) →
        r.periods_back < s.periods_back →
        ∀ a b, r.date = some a → s.date = some b → b < a) := by
  obtain ⟨hA, hB, hC⟩ := stack_group_full w hw (validFilter (crossMerge ods data)) d hk hdates
  exact ⟨_, get_panel_ok ods raw data w h1 h2, hA, hB, hC⟩

theorem window_cap_ranks_witness :
    ∃ out, get_panel [20200601]
        [{ realtime_start := ⟨2020, 1, 1⟩, realtime_end := ⟨2020, 12, 31⟩,
           date := ⟨2020, 1, 31⟩, value := "v1" },
         { realtime_start := ⟨2020, 1, 1⟩, realtime_end := ⟨2020, 12, 31⟩,
           date := ⟨2020, 2, 29⟩, value := "v2" },
         { realtime_start := ⟨2020, 1, 1⟩, realtime_end := ⟨2020, 12, 31⟩,
           date := ⟨2020, 3, 31⟩, value := "v3" }] 2 = Except.ok out ∧
      ((out.filter (fun r => decide (r.observation_date = 20200601))).map
        (fun r => r.periods_back) = List.range' 1 2) ∧
      (∀ r ∈ out.filter (fun r2 => decide (r2.observation_date = 20200601)),
        ∃ v dt, r.value = some v ∧ r.date = some dt) ∧
      (∀ r s, r ∈ out.filter (fun r2 => decide (r2.observation_date = 20200601)) →
        s ∈ out.filter (fun r2 => decide (r2.observation_date = 20200601)) →
        r.periods_back < s.periods_back →
        ∀ a b, r.date = some a → s.date = some b → b < a) :=
  window_cap_ranks [20200601] _
    [{ realtime_start := 20200101, realtime_end := 20201231,
       date := 20200131, value := "v1" },
     { realtime_start := 20200101, realtime_end := 20201231,
       date := 20200229, value := "v2" },
     { realtime_start := 20200101, realtime_end := 20201231,
       date := 20200331, value := "v3" }] 2 20200601 rfl rfl
    (by decide) (by decide) (by decide)

/-- The index of the pivot holds an observation date iff that date has at
least one qualifying row after the window step. -/
theorem mem_panelIndex_iff_group (w : Nat) (hw : w ≠ 0) (rows : List Row) (d : Nat) :
    d ∈ panelIndex (withPeriodsBack (applyWindow w rows)) ↔
      0 < ((applyWindow w rows).filter
        (fun r => decide (r.observation_date = d))).length := by
  constructor
  · intro hd
    obtain ⟨q, hq, hod⟩ := mem_panelIndex.mp hd
    have hkey : (q.1.observation_date, q.2) ∈
        pivotKeys (withPeriodsBack (applyWindow w rows)) :=
      List.mem_map_of_mem _ hq
    rw [hod] at hkey
    have := (pivotKey_group_iff w hw rows d q.2).mp hkey
    omega
  · intro hpos
    obtain ⟨q, hq, hod, _⟩ := rank_exists w hw rows d (Nat.le_refl 1) (by omega)
    exact mem_panelIndex.mpr ⟨q, hq, hod⟩

/-- Partial window behaviour of the stacked output on one observation date:
with k qualifying rows, k at most the window, the ranks of that date that
carry data are exactly 1..k, and every all null padding row of that date has
a rank above k. -/
theorem stack_group_partial (w : Nat) (hw : w ≠ 0) (rows : List Row) (d : Nat)
    (hk : (rows.filter (fun r => decide (r.observation_date = d))).length ≤ w) :
    ((stackRows (withPeriodsBack (applyWindow w rows))).filter
        (fun r => decide (r.observation_date = d) && r.value.isSome)).map
        (fun r => r.periods_back) =
      List.range' 1 (rows.filter (fun r => decide (r.observation_date = d))).length ∧
    ∀ r ∈ stackRows (withPeriodsBack (applyWindow w rows)),
      r.observation_date = d → r.value = none →
        (rows.filter (fun r2 => decide (r2.observation_date = d))).length <
          r.periods_back := by
  have hkd : ((applyWindow w rows).filter
      (fun r => decide (r.observation_date = d))).length =
      (rows.filter (fun r => decide (r.observation_date = d))).length := by
    have hgrp : (applyWindow w rows).filter (fun r => decide (r.observation_date = d)) =
        nlargestByDate w (groupRows rows d) := applyWindow_group w hw rows d
    have hglen : (groupRows rows d).length =
        (rows.filter (fun r => decide (r.observation_date = d))).length := rfl
    rw [hgrp, nlargestByDate_length, hglen]
    omega
  have hsplit : (stackRows (withPeriodsBack (applyWindow w rows))).filter
      (fun r => decide (r.observation_date = d) && r.value.isSome) =
      ((stackRows (withPeriodsBack (applyWindow w rows))).filter
        (fun r => decide (r.observation_date = d))).filter
        (fun r => r.value.isSome) := by
    rw [List.filter_filter]
    apply List.filter_congr
    intro x _
    rw [Bool.and_comm]
  by_cases hzero : (rows.filter (fun r => decide (r.observation_date = d))).length = 0
  · have hnotidx : d ∉ panelIndex (withPeriodsBack (applyWindow w rows)) := by
      rw [mem_panelIndex_iff_group w hw rows d, hkd]
      omega
    constructor
    · rw [hsplit, stackRows_filter, if_neg hnotidx, hzero]
      rfl
    · intro r hr hod _
      exfalso
      obtain ⟨od2, hod2, hr2⟩ := List.mem_flatMap.mp hr
      obtain ⟨pb, _, rfl⟩ := List.mem_map.mp hr2
      rw [stackCell_od] at hod
      exact hnotidx (hod ▸ hod2)
  · have hpos : 0 < (rows.filter (fun r => decide (r.observation_date = d))).length := by
      omega
    have hdidx : d ∈ panelIndex (withPeriodsBack (applyWindow w rows)) := by
      rw [mem_panelIndex_iff_group w hw rows d, hkd]
      omega
    have hrows : (stackRows (withPeriodsBack (applyWindow w rows))).filter
        (fun r => decide (r.observation_date = d)) =
        (panelCols (withPeriodsBack (applyWindow w rows))).map
          (stackCell (withPeriodsBack (applyWindow w rows)) d) := by
      rw [stackRows_filter, if_pos hdidx]
    have hcell_iff : ∀ pb, (stackCell (withPeriodsBack (applyWindow w rows)) d pb).value.isSome =
        decide (1 ≤ pb ∧ pb ≤ (rows.filter
          (fun r => decide (r.observation_date = d))).length) := by
      intro pb
      by_cases hkey : (d, pb) ∈ pivotKeys (withPeriodsBack (applyWindow w rows))
      · have hbounds := (pivotKey_group_iff w hw rows d pb).mp hkey
        rw [hkd] at hbounds
        cases hcell : lookupCell (withPeriodsBack (applyWindow w rows)) d pb with
        | none => exact absurd hkey (lookupCell_none_iff.mp hcell)
        | some vd =>
          simp [stackCell, hcell, hbounds.1, hbounds.2]
      · have hb2 : ¬(1 ≤ pb ∧ pb ≤ (rows.filter
            (fun r => decide (r.observation_date = d))).length) := by
          intro hb
          exact hkey ((pivotKey_group_iff w hw rows d pb).mpr ⟨hb.1, by omega⟩)
        cases hcell : lookupCell (withPeriodsBack (applyWindow w rows)) d pb with
        | none => simp [stackCell, hcell, hb2]
        | some vd =>
          exfalso
          apply hkey
          by_contra hkey2
          rw [lookupCell_none_iff.mpr hkey2] at hcell
          cases hcell
    constructor
    · rw [hsplit, hrows, List.filter_map, List.map_map]
      have hpbmap : ((fun r : StackedRow => r.periods_back) ∘
          stackCell (withPeriodsBack (applyWindow w rows)) d) = (fun pb => pb) := by
        funext pb
        exact stackCell_pb _ d pb
      rw [hpbmap, List.map_id']
      have hfilt : (panelCols (withPeriodsBack (applyWindow w rows))).filter
          ((fun r : StackedRow => r.value.isSome) ∘
            stackCell (withPeriodsBack (applyWindow w rows)) d) =
          (panelCols (withPeriodsBack (applyWindow w rows))).filter
            (fun pb => decide (1 ≤ pb ∧ pb ≤ (rows.filter
              (fun r => decide (r.observation_date = d))).length)) := by
        apply List.filter_congr
        intro pb _
        exact hcell_iff pb
      rw [hfilt]
      apply strictSorted_eq_of_mem_iff
      · exact List.Pairwise.sublist (List.filter_sublist _) (panelCols_sorted_lt _)
      · exact List.pairwise_lt_range' 1 _
      · intro pb
        rw [List.mem_filter, List.mem_range'_1, mem_panelCols]
        constructor
        · rintro ⟨_, hb⟩
          have := of_decide_eq_true hb
          omega
        · rintro ⟨hb1, hb2⟩
          have hb2k : pb ≤ (rows.filter
              (fun r => decide (r.observation_date = d))).length := by omega
          obtain ⟨q, hq, hod, hj⟩ := rank_exists w hw rows d hb1 (by omega)
          exact ⟨⟨q, hq, hj⟩, by simp [hb1, hb2k]⟩
    · intro r hr hod hval
      have hrf : r ∈ (stackRows (withPeriodsBack (applyWindow w rows))).filter
          (fun r2 => decide (r2.observation_date = d)) :=
        List.mem_filter.mpr ⟨hr, by simp [hod]⟩
      rw [hrows] at hrf
      obtain ⟨pb, hpb, rfl⟩ := List.mem_map.mp hrf
      have hnone : (stackCell (withPeriodsBack (applyWindow w rows)) d pb).value.isSome =
          false := by rw [hval]; rfl
      rw [hcell_iff pb] at hnone
      have hb := of_decide_eq_false hnone
      have hpb1 : 1 ≤ pb := by
        obtain ⟨q, hq, hj⟩ := mem_panelCols.mp hpb
        have := withPeriodsBack_pb_pos hq
        omega
      rw [stackCell_pb]
      omega

/-- C6: an observation date for which no fetched observation qualifies (its
realtime interval never contains the date) contributes zero rows to the
panel output, not a row of nulls, for every window. -/
theorem zero_qualifying_no_rows (ods : List Nat) (raw : List RawObs) (data : List Obs)
    (w d : Nat) (h1 : ods.isEmpty = false) (h2 : convertObs raw = Except.ok data)
    (h3 : ∀ o ∈ data, ¬(o.realtime_start ≤ d ∧ d ≤ o.realtime_end)) :
    ∃ out, get_panel ods raw w = Except.ok out ∧
      out.filter (fun r => decide (r.observation_date = d)) = [] := by
  refine ⟨_, get_panel_ok ods raw data w h1 h2, ?_⟩
  rw [stackRows_filter, if_neg ?_]
  intro hd
  obtain ⟨q, hq, hod⟩ := mem_panelIndex.mp hd
  obtain ⟨p, hp, heq⟩ := mem_withPeriodsBack.mp hq
  have hrowmem : q.1 ∈ applyWindow w (validFilter (crossMerge ods data)) := by
    rw [← heq]
    have := List.mem_map_of_mem Prod.snd hp
    unfold indexed at this
    rwa [idxFrom_map_snd] at this
  have hdf2 : q.1 ∈ (crossMerge ods data).filter
      (fun r => decide (r.realtime_start ≤ r.observation_date ∧
        r.observation_date ≤ r.realtime_end)) := applyWindow_subset hrowmem
  have hcm : q.1 ∈ crossMerge ods data := List.mem_of_mem_filter hdf2
  have hb : q.1.realtime_start ≤ q.1.observation_date ∧
      q.1.observation_date ≤ q.1.realtime_end := by
    simpa using List.of_mem_filter hdf2
  have hcm2 : q.1 ∈ ods.flatMap (fun od => data.map (mkRow od)) := hcm
  obtain ⟨od2, hod2, hmem2⟩ := List.mem_flatMap.mp hcm2
  obtain ⟨o, ho, hmk⟩ := List.mem_map.mp hmem2
  rw [← hmk] at hod hb
  simp only [mkRow] at hod hb
  exact h3 o ho ⟨hod ▸ hb.1, hod ▸ hb.2⟩

theorem zero_qualifying_no_rows_witness :
    ([20200101] : List Nat).isEmpty = false ∧
    convertObs [{ realtime_start := ⟨2020, 2, 1⟩, realtime_end := ⟨2020, 3, 1⟩,
                  date := ⟨2020, 1, 31⟩, value := "100" }] =
      Except.ok [{ realtime_start := 20200201, realtime_end := 20200301,
                   date := 20200131, value := "100" }] ∧
    (∀ o ∈ [({ realtime_start := 20200201, realtime_end := 20200301,
               date := 20200131, value := "100" } : Obs)],
      ¬(o.realtime_start ≤ 20200601 ∧ (20200601 : Nat) ≤ o.realtime_end)) ∧
    ∃ out, get_panel [20200101]
        [{ realtime_start := ⟨2020, 2, 1⟩, realtime_end := ⟨2020, 3, 1⟩,
           date := ⟨2020, 1, 31⟩, value := "100" }] 24 = Except.ok out ∧
      out.filter (fun r => decide (r.observation_date = 20200601)) = [] :=
  ⟨rfl, rfl, by decide,
    zero_qualifying_no_rows [20200101] _ _ 24 20200601 rfl rfl (by decide)⟩

/-- C7 counterexample: a panel over two observation dates where the first
sees one observation and the second sees two, window 24.  The claim says the
first date gets no padding rows beyond its single rank; the output in fact
holds an all null row with rank 2 for that date, because the long form
reshape keeps every (date, rank) combination of the wide frame. -/
theorem no_padding_counterexample :
    ∃ out, get_panel [20200601, 20200801]
        [{ realtime_start := ⟨2020, 5, 1⟩, realtime_end := ⟨2020, 12, 31⟩,
           date := ⟨2020, 4, 30⟩, value := "a" },
         { realtime_start := ⟨2020, 7, 1⟩, realtime_end := ⟨2020, 12, 31⟩,
           date := ⟨2020, 6, 30⟩, value := "b" }] 24 = Except.ok out ∧
      ({ observation_date := 20200601, periods_back := 2,
         value := none, date := none } : StackedRow) ∈ out :=
  ⟨_, rfl, by decide⟩

/-- C7 amended: a date with k qualifying observations, k at most window,
yields exactly k data carrying ranked rows (periods_back 1..k) in the panel;
no padding up to window is produced, but the long form reshape keeps all
null rows, so the date may additionally appear with all null rows at every
rank other dates reach beyond k, each such padding rank being above k. -/
theorem fewer_qualifying_fewer_ranks (ods : List Nat) (raw : List RawObs)
    (data : List Obs) (w d : Nat)
    (h1 : ods.isEmpty = false) (h2 : convertObs raw = Except.ok data) (hw : w ≠ 0)
    (hk : ((validFilter (crossMerge ods data)).filter
        (fun r => decide (r.observation_date = d))).length ≤ w) :
    ∃ out, get_panel ods raw w = Except.ok out ∧
      ((out.filter (fun r => decide (r.observation_date = d) && r.value.isSome)).map
        (fun r => r.periods_back)) =
        List.range' 1 ((validFilter (crossMerge ods data)).filter
          (fun r => decide (r.observation_date = d))).length ∧
      ∀ r ∈ out, r.observation_date = d → r.value = none →
        ((validFilter (crossMerge ods data)).filter
          (fun r2 => decide (r2.observation_date = d))).length < r.periods_back := by
  obtain ⟨hA, hB⟩ := stack_group_partial w hw (validFilter (crossMerge ods data)) d hk
  exact ⟨_, get_panel_ok ods raw data w h1 h2, hA, hB⟩

theorem fewer_qualifying_fewer_ranks_witness :
    ∃ out, get_panel [20200601, 20200801]
        [{ realtime_start := ⟨2020, 5, 1⟩, realtime_end := ⟨2020, 12, 31⟩,
           date := ⟨2020, 4, 30⟩, value := "a" },
         { realtime_start := ⟨2020, 7, 1⟩, realtime_end := ⟨2020, 12, 31⟩,
           date := ⟨2020, 6, 30⟩, value := "b" }] 24 = Except.ok out ∧
      ((out.filter (fun r => decide (r.observation_date = 20200601) &&
          r.value.isSome)).map (fun r => r.periods_back)) =
        List.range' 1 ((validFilter (crossMerge [20200601, 20200801]
          [{ realtime_start := 20200501, realtime_end := 20201231,
             date := 20200430, value := "a" },
           { realtime_start := 20200701, realtime_end := 20201231,
             date := 20200630, value := "b" }])).filter
          (fun r => decide (r.observation_date = 20200601))).length ∧
      ∀ r ∈ out, r.observation_date = 20200601 → r.value = none →
        ((validFilter (crossMerge [20200601, 20200801]
          [{ realtime_start := 20200501, realtime_end := 20201231,
             date := 20200430, value := "a" },
           { realtime_start := 20200701, realtime_end := 20201231,
             date := 20200630, value := "b" }])).filter
          (fun r2 => decide (r2.observation_date = 20200601))).length <
          r.periods_back :=
  fewer_qualifying_fewer_ranks [20200601, 20200801] _
    [{ realtime_start := 20200501, realtime_end := 20201231,
       date := 20200430, value := "a" },
     { realtime_start := 20200701, realtime_end := 20201231,
       date := 20200630, value := "b" }] 24 20200601 rfl rfl
    (by decide) (by decide)
